import Mathlib

/-!
# Verification of the Spider Solitaire engine

Shallow embedding of the 4-suit Spider Solitaire variant of the repository
(the `Solitaire` component with `completedRuns`/`moves` counters, undo
history and auto-play).  Cards carry their suit and rank as indices into
the source's `SUITS` and `RANKS` arrays (so rank `0` is the Ace and rank
`12` the King); `faceUp` and `id` are carried verbatim.  The tableau is
the ordered list of piles (index 0 = bottom of a pile, last = top), the
stock is drawn from the end of its list, exactly as in the source.

Every reachable state of the program has exactly 10 tableau piles, so the
source's fixed `for (col = 0; col < 10; ...)` loops coincide with
iteration over the pile list; the embedding iterates over the list.
Functions that the source runs as React event handlers are embedded as
pure functions from `(state, history)` to `(state, history)`; the one
handler that can throw on an out-of-range pile index (`doTableauMove`
reading `tableau[fromCol]` when `fromCol` is not a valid index) is
embedded with an `Option` result, `none` standing for the thrown
exception (no state update is committed in that case).
-/

namespace Spider

/-- A playing card.  `suit` and `rank` are the indices of the card's suit
and rank in the source's `SUITS` and `RANKS` arrays. -/
structure Card where
  suit : Nat
  rank : Nat
  faceUp : Bool
  id : String
  deriving DecidableEq, Repr

/-- Placeholder card returned by `List.getD` at indices the source never
reads; it is face-down so that speculative reads never fake a candidate. -/
def noCard : Card := { suit := 0, rank := 0, faceUp := false, id := "" }

/-- The game state of the Spider variant: 10 tableau piles, the stock,
and the two counters. -/
structure GameState where
  tableau : List (List Card)
  stock : List Card
  completedRuns : Nat
  moves : Nat
  deriving DecidableEq, Repr

/-- Source `canDropCard` (Spider variant): an empty destination accepts
anything; otherwise the dropped card must be exactly one rank below the
destination's top card and of the same suit.  The source compares
`RANKS.indexOf` values with `=== rankValue(dest) - 1`; over the rank
indices (natural numbers) this is `card.rank + 1 = destCard.rank`. -/
def canDropCard (card : Card) (destination : List Card) : Bool :=
  match destination.getLast? with
  | none => true
  | some destCard => card.rank + 1 == destCard.rank && card.suit == destCard.suit

/-- Source `isValidSpiderRun`: groups of fewer than two cards pass; longer
groups need every adjacent pair face-up, same suit, and descending by
exactly one rank. -/
def isValidSpiderRun : List Card → Bool
  | c1 :: c2 :: rest =>
      c1.faceUp && c2.faceUp && c1.suit == c2.suit && c1.rank == c2.rank + 1 &&
        isValidSpiderRun (c2 :: rest)
  | _ => true

/-- The source's `RANKS.slice().reverse()` comparison list, as rank
indices: King down to Ace. -/
def kingToAce : List Nat := [12, 11, 10, 9, 8, 7, 6, 5, 4, 3, 2, 1, 0]

/-- The source's `pile.slice(-13)`: the top 13 cards of a pile of length
at least 13. -/
def top13 (pile : List Card) : List Card := pile.drop (pile.length - 13)

/-- The completed-run test the source repeats inline (in the sweep of
`doTableauMove`, in `isAnyMovePossible` and in `autoPlayNextMove`): the
pile has at least 13 cards and its top 13 (`pile.slice(-13)`) are all
face-up, all of the first one's suit, and their ranks read K,Q,...,A. -/
def completedRunCheck (pile : List Card) : Bool :=
  decide (13 ≤ pile.length) &&
    ((top13 pile).all (fun card =>
        card.suit == ((top13 pile).headD noCard).suit && card.faceUp) &&
      (top13 pile).map Card.rank == kingToAce)

/-- One pile of the sweep loop: a completed run loses its top 13 cards,
any other pile is untouched. -/
def sweepPile (pile : List Card) : List Card :=
  if completedRunCheck pile then pile.take (pile.length - 13) else pile

/-- The tableau after the source's sweep loop over all piles. -/
def sweepTableau (t : List (List Card)) : List (List Card) := t.map sweepPile

/-- How many piles the sweep loop clears (each adds 1 to `completedRuns`). -/
def sweepCount (t : List (List Card)) : Nat := t.countP completedRunCheck

/-- Source: after the move, `if (justMovedFrom.length && !top.faceUp)`
replace the top card by its face-up copy. -/
def flipLastCard (pile : List Card) : List Card :=
  match pile.getLast? with
  | none => pile
  | some c => if c.faceUp then pile else pile.dropLast ++ [{ c with faceUp := true }]

/-- Source: `gameState.tableau.map((p, idx) => ...)` — the source pile is
truncated before `fromRow`, the destination extended by the moving group.
Note the `fromCol` test comes first, so when `toCol = fromCol` (or when
`toCol` is not an index of the tableau) the group is appended nowhere. -/
def moveTableau (t : List (List Card)) (fromCol fromRow toCol : Nat) : List (List Card) :=
  (List.range t.length).map fun idx =>
    if idx = fromCol then (t.getD idx []).take fromRow
    else if idx = toCol then t.getD idx [] ++ (t.getD fromCol []).drop fromRow
    else t.getD idx []

/-- The committed result of `doTableauMove`: move the group, flip the
source pile's new top card if face-down, then sweep all piles; the sweep
adds to `completedRuns` and the move adds 1 to `moves`. -/
def movedState (s : GameState) (fromCol fromRow toCol : Nat) : GameState :=
  let afterMove := moveTableau s.tableau fromCol fromRow toCol
  let afterFlip := afterMove.set fromCol (flipLastCard (afterMove.getD fromCol []))
  { tableau := sweepTableau afterFlip
    stock := s.stock
    completedRuns := s.completedRuns + sweepCount afterFlip
    moves := s.moves + 1 }

/-- Source `doTableauMove`.  Reading `gameState.tableau[fromCol]` with an
index outside the tableau throws in the source (`undefined.slice`), which
we embed as `none`; otherwise the move commits (pushing the pre-move
state onto the history) exactly when the moving group is a single card or
a valid run, and is ignored otherwise. -/
def doTableauMove (s : GameState) (history : List GameState) (fromCol fromRow toCol : Nat) :
    Option (GameState × List GameState) :=
  if fromCol < s.tableau.length then
    let movingCards := (s.tableau.getD fromCol []).drop fromRow
    if movingCards.length == 1 || isValidSpiderRun movingCards then
      some (movedState s fromCol fromRow toCol, history ++ [s])
    else
      some (s, history)
  else
    none

/-- Source `handleUndo`: pop the last history entry, if any, and restore
it verbatim as the current state. -/
def handleUndo (s : GameState) (history : List GameState) : GameState × List GameState :=
  match history.getLast? with
  | none => (s, history)
  | some lastState => (lastState, history.dropLast)

/-- The stock-deal `tableau.map` of the source: walk the piles in order,
each pile popping one card off the end of the mutable stock copy and
appending it face-up, piles beyond the exhausted stock left unchanged.
Returns the new piles and what is left of the stock. -/
def dealRound : List (List Card) → List Card → List (List Card) × List Card
  | [], stock => ([], stock)
  | p :: ps, stock =>
    match stock.getLast? with
    | none =>
      let r := dealRound ps stock
      (p :: r.1, r.2)
    | some c =>
      let r := dealRound ps stock.dropLast
      ((p ++ [{ c with faceUp := true }]) :: r.1, r.2)

/-- The state built by the source's stock-deal handler once its guards
pass: dealt tableau, shrunken stock, `moves + 1`; `completedRuns` is not
touched and no completed-run sweep is run. -/
def dealtState (s : GameState) : GameState :=
  { tableau := (dealRound s.tableau s.stock).1
    stock := (dealRound s.tableau s.stock).2
    completedRuns := s.completedRuns
    moves := s.moves + 1 }

/-- Source stock-deal `onClick`: a no-op unless the stock is non-empty
and every pile is non-empty; otherwise deals one round, pushes the
pre-deal state onto the history and bumps `moves`.  (The handler's
`gameIsOver` early return is presentation state outside the engine.) -/
def stockDealClick (s : GameState) (history : List GameState) : GameState × List GameState :=
  if s.stock.isEmpty then (s, history)
  else if s.tableau.any List.isEmpty then (s, history)
  else (dealtState s, history ++ [s])

/-- Source `isAnyMovePossible`: a completable run somewhere, or a legal
tableau move somewhere (face-up start, movable group, different
destination pile accepted by `canDropCard`), or a legal stock deal. -/
def isAnyMovePossible (s : GameState) : Bool :=
  ((List.range s.tableau.length).any fun col =>
      completedRunCheck (s.tableau.getD col [])) ||
    ((List.range s.tableau.length).any fun fromCol =>
      (List.range (s.tableau.getD fromCol []).length).any fun fromRow =>
        ((s.tableau.getD fromCol []).getD fromRow noCard).faceUp &&
          ((!decide (1 < ((s.tableau.getD fromCol []).drop fromRow).length) ||
              isValidSpiderRun ((s.tableau.getD fromCol []).drop fromRow)) &&
            ((List.range s.tableau.length).any fun toCol =>
              toCol != fromCol &&
                canDropCard (((s.tableau.getD fromCol []).drop fromRow).headD noCard)
                  (s.tableau.getD toCol [])))) ||
    (!s.stock.isEmpty && s.tableau.all fun col => decide (0 < col.length))

/-- First pile index whose pile passes the completed-run check — the pile
`autoPlayNextMove` clears in its first branch. -/
def findRunCol (t : List (List Card)) : Option Nat :=
  (List.range t.length).find? fun col => completedRunCheck (t.getD col [])

/-- The state after `autoPlayNextMove` clears the K-through-A run on top
of pile `col`: that pile loses its top 13 cards, `completedRuns` and
`moves` each gain 1.  (No flip and no sweep of other piles happen in this
branch of the source.) -/
def clearRunAt (s : GameState) (col : Nat) : GameState :=
  { s with
    tableau := (List.range s.tableau.length).map fun i =>
      if i = col then (s.tableau.getD i []).take ((s.tableau.getD i []).length - 13)
      else s.tableau.getD i []
    completedRuns := s.completedRuns + 1
    moves := s.moves + 1 }

/-- Inner destination scan of `autoPlayNextMove` (and of the drop
handler): first pile index, other than the source, whose pile accepts the
moving group's first card. -/
def destFor (t : List (List Card)) (fromCol : Nat) (movingCards : List Card) : Option Nat :=
  (List.range t.length).find? fun toCol =>
    toCol != fromCol && canDropCard (movingCards.headD noCard) (t.getD toCol [])

/-- One step of `autoPlayNextMove`'s tableau-move scan at a fixed source
position: skip if the card there is face-down or the group is an invalid
multi-card run, otherwise look for a destination. -/
def rowCandidate (t : List (List Card)) (fromCol fromRow : Nat) : Option (Nat × Nat × Nat) :=
  if ((t.getD fromCol []).getD fromRow noCard).faceUp then
    if 1 < ((t.getD fromCol []).drop fromRow).length &&
        !isValidSpiderRun ((t.getD fromCol []).drop fromRow) then
      none
    else
      (destFor t fromCol ((t.getD fromCol []).drop fromRow)).map fun toCol =>
        (fromCol, fromRow, toCol)
  else
    none

/-- The full tableau-move scan of `autoPlayNextMove`: source piles in
ascending index, positions in ascending index, destinations in ascending
index; the first hit wins. -/
def findFirstMove (t : List (List Card)) : Option (Nat × Nat × Nat) :=
  (List.range t.length).findSome? fun fromCol =>
    (List.range (t.getD fromCol []).length).findSome? fun fromRow =>
      rowCandidate t fromCol fromRow

/-- Source `autoPlayNextMove`: clear the first completable run, else make
the first legal tableau move (with the same flip-and-sweep as
`doTableauMove`), else deal from the stock if legal, else do nothing.
Every acting branch pushes the prior state onto the history. -/
def autoPlayNextMove (s : GameState) (history : List GameState) :
    GameState × List GameState :=
  match findRunCol s.tableau with
  | some col => (clearRunAt s col, history ++ [s])
  | none =>
    match findFirstMove s.tableau with
    | some (fromCol, fromRow, toCol) =>
      (movedState s fromCol fromRow toCol, history ++ [s])
    | none =>
      if !s.stock.isEmpty && s.tableau.all (fun col => decide (0 < col.length)) then
        (dealtState s, history ++ [s])
      else
        (s, history)

end Spider

namespace Spider

/-! ## Claim-side (specification) vocabulary -/

/-- The descending sequence `[n, n-1, ..., 1, 0]`. -/
def descSeq : Nat → List Nat
  | 0 => [0]
  | n + 1 => (n + 1) :: descSeq n

/-- Specification-level statement that a pile's top 13 cards form a
face-up, same-suit, strict King-through-Ace descending run. -/
def IsCompletedRunTop (pile : List Card) : Prop :=
  13 ≤ pile.length ∧
  (∀ c ∈ top13 pile, c.faceUp = true) ∧
  (∀ c ∈ top13 pile, ∀ d ∈ top13 pile, c.suit = d.suit) ∧
  List.Chain' (fun a b => a.rank = b.rank + 1) (top13 pile) ∧
  (top13 pile).head?.map Card.rank = some 12

instance (pile : List Card) : Decidable (IsCompletedRunTop pile) :=
  inferInstanceAs (Decidable (13 ≤ pile.length ∧
    (∀ c ∈ top13 pile, c.faceUp = true) ∧
    (∀ c ∈ top13 pile, ∀ d ∈ top13 pile, c.suit = d.suit) ∧
    List.Chain' (fun a b : Card => a.rank = b.rank + 1) (top13 pile) ∧
    (top13 pile).head?.map Card.rank = some 12))

/-- Specification-level pair condition of a movable run: both cards
face-up, identical suit, strictly consecutive descending rank. -/
def AdjacentOk (a b : Card) : Prop :=
  a.faceUp = true ∧ b.faceUp = true ∧ a.suit = b.suit ∧ a.rank = b.rank + 1

instance : DecidableRel AdjacentOk := fun a b =>
  inferInstanceAs (Decidable
    (a.faceUp = true ∧ b.faceUp = true ∧ a.suit = b.suit ∧ a.rank = b.rank + 1))

theorem descSeq_length (n : Nat) : (descSeq n).length = n + 1 := by
  induction n with
  | zero => rfl
  | succ n ih => simp [descSeq, ih]

theorem descSeq_head? (n : Nat) : (descSeq n).head? = some n := by
  cases n <;> rfl

theorem descSeq_chain (n : Nat) : List.Chain' (fun a b => a = b + 1) (descSeq n) := by
  induction n with
  | zero => simp [descSeq]
  | succ n ih =>
    rw [descSeq]
    rcases hd : descSeq n with _ | ⟨y, ys⟩
    · simp
    · rw [List.chain'_cons]
      have hy : y = n := by
        have := descSeq_head? n
        rw [hd] at this
        exact Option.some.inj this
      exact ⟨by omega, hd ▸ ih⟩

theorem eq_descSeq_iff (l : List Nat) (n : Nat) :
    l = descSeq n ↔
      l.length = n + 1 ∧ l.head? = some n ∧ List.Chain' (fun a b => a = b + 1) l := by
  induction n generalizing l with
  | zero =>
    constructor
    · rintro rfl
      exact ⟨rfl, rfl, List.chain'_singleton 0⟩
    · rintro ⟨hlen, hhd, _⟩
      rcases l with _ | ⟨x, xs⟩
      · simp at hlen
      · have hx : x = 0 := Option.some.inj hhd
        have hxs : xs = [] := by
          have : xs.length = 0 := by simpa using hlen
          exact List.eq_nil_of_length_eq_zero this
        simp [descSeq, hx, hxs]
  | succ n ih =>
    constructor
    · rintro rfl
      refine ⟨by simp [descSeq, descSeq_length], rfl, descSeq_chain (n + 1)⟩
    · rintro ⟨hlen, hhd, hch⟩
      rcases l with _ | ⟨x, xs⟩
      · simp at hhd
      · have hx : x = n + 1 := Option.some.inj hhd
        rcases xs with _ | ⟨y, ys⟩
        · simp at hlen
        · rw [List.chain'_cons] at hch
          have hy : y = n := by
            have h1 := hch.1
            omega
          have htail : y :: ys = descSeq n := by
            refine (ih (y :: ys)).mpr ⟨?_, ?_, hch.2⟩
            · simpa using hlen
            · simp [hy]
          rw [descSeq, hx, ← htail]

theorem kingToAce_eq_descSeq : kingToAce = descSeq 12 := by decide

theorem top13_length {pile : List Card} (h13 : 13 ≤ pile.length) :
    (top13 pile).length = 13 := by
  simp only [top13, List.length_drop]
  omega

/-- The source's inline completed-run check holds exactly when the pile's
top 13 cards form a face-up, same-suit, strict K-through-A descending run. -/
theorem completedRunCheck_iff (pile : List Card) :
    completedRunCheck pile = true ↔ IsCompletedRunTop pile := by
  unfold completedRunCheck IsCompletedRunTop
  simp only [Bool.and_eq_true, decide_eq_true_eq, List.all_eq_true, beq_iff_eq]
  constructor
  · rintro ⟨h13, hall, hmap⟩
    have hmap' : (top13 pile).map Card.rank = descSeq 12 := by
      rw [hmap, kingToAce_eq_descSeq]
    obtain ⟨_, hhd, hch⟩ := (eq_descSeq_iff _ 12).mp hmap'
    refine ⟨h13, fun c hc => (hall c hc).2, ?_, ?_, ?_⟩
    · intro c hc d hd
      rw [(hall c hc).1, (hall d hd).1]
    · exact (List.chain'_map Card.rank).mp hch
    · rw [← List.head?_map]
      exact hhd
  · rintro ⟨h13, hup, hsuit, hch, hhd⟩
    obtain ⟨c0, hc0, hc0rank⟩ : ∃ c0, (top13 pile).head? = some c0 ∧ c0.rank = 12 := by
      rcases h : (top13 pile).head? with _ | c0
      · rw [h] at hhd
        simp at hhd
      · rw [h] at hhd
        exact ⟨c0, rfl, by simpa using hhd⟩
    have hc0mem : c0 ∈ top13 pile := by
      rcases ht : top13 pile with _ | ⟨a, as⟩
      · rw [ht] at hc0
        simp at hc0
      · rw [ht] at hc0
        have ha : a = c0 := Option.some.inj hc0
        rw [← ha]
        exact List.mem_cons_self a as
    refine ⟨h13, ?_, ?_⟩
    · intro c hc
      refine ⟨?_, hup c hc⟩
      rw [List.headD_eq_head?_getD, hc0]
      exact hsuit c hc c0 hc0mem
    · rw [kingToAce_eq_descSeq]
      refine (eq_descSeq_iff _ 12).mpr ⟨?_, ?_, ?_⟩
      · rw [List.length_map, top13_length h13]
      · rw [List.head?_map, hc0]
        simp [hc0rank]
      · exact (List.chain'_map Card.rank).mpr hch

theorem isValidSpiderRun_iff_chain (cards : List Card) :
    isValidSpiderRun cards = true ↔ List.Chain' AdjacentOk cards := by
  induction cards with
  | nil => simp [isValidSpiderRun]
  | cons a tail ih =>
    cases tail with
    | nil => simp [isValidSpiderRun]
    | cons b rest =>
      rw [List.chain'_cons, ← ih]
      show (a.faceUp && b.faceUp && a.suit == b.suit && a.rank == b.rank + 1 &&
        isValidSpiderRun (b :: rest)) = true ↔ _
      simp only [Bool.and_eq_true, beq_iff_eq, AdjacentOk]
      tauto

/-- C9: `isValidSpiderRun` accepts every single card, and accepts a group
of two or more cards exactly when every adjacent pair is face-up,
same-suit, and strictly consecutive descending in rank. -/
theorem claim_C9_run_validity :
    (∀ c : Card, isValidSpiderRun [c] = true) ∧
      ∀ cards : List Card,
        isValidSpiderRun cards = true ↔ List.Chain' AdjacentOk cards := by
  refine ⟨fun c => rfl, fun cards => isValidSpiderRun_iff_chain cards⟩

/-! ## C8: placement predicate -/

/-- C8: `canDropCard` accepts any card on an empty pile, and on a
non-empty pile accepts exactly the card one rank below the destination's
top card and of the same suit. -/
theorem claim_C8_placement (card : Card) (dest : List Card) :
    canDropCard card dest = true ↔
      (dest = [] ∨ ∃ destTop, dest.getLast? = some destTop ∧
        card.rank + 1 = destTop.rank ∧ card.suit = destTop.suit) := by
  cases h : dest.getLast? with
  | none =>
    have hnil : dest = [] := by
      cases dest with
      | nil => rfl
      | cons x xs => simp [List.getLast?_eq_getElem?] at h
    subst hnil
    simp [canDropCard]
  | some destTop =>
    have hne : dest ≠ [] := by
      intro hd
      subst hd
      simp [List.getLast?_eq_getElem?] at h
    constructor
    · intro hb
      simp only [canDropCard, h, Bool.and_eq_true, beq_iff_eq] at hb
      exact Or.inr ⟨destTop, rfl, hb.1, hb.2⟩
    · intro hor
      rcases hor with hd | ⟨d, hd, h1, h2⟩
      · exact absurd hd hne
      · have hdd : destTop = d := Option.some.inj hd
        subst hdd
        simp [canDropCard, h, h1, h2]

/-! ## Sample states used by witnesses and counterexamples -/

/-- Shorthand card constructor for concrete sample states. -/
def mkCard (su rk : Nat) (up : Bool) : Card :=
  { suit := su, rank := rk, faceUp := up, id := "" }

/-- A 10-pile state with a 5 of the first suit on pile 0 and a 6 of the
first suit on pile 1 (ranks are indices: 4 and 5). -/
def sampleA : GameState :=
  { tableau := [[mkCard 0 4 true], [mkCard 0 5 true], [], [], [], [], [], [], [], []]
    stock := []
    completedRuns := 0
    moves := 0 }

/-- A 10-pile state with every pile non-empty and a one-card stock, so a
stock deal is legal but runs out after pile 0. -/
def sampleB : GameState :=
  { tableau := [[mkCard 0 4 true], [mkCard 0 5 true], [mkCard 1 1 true], [mkCard 1 2 true],
      [mkCard 1 3 true], [mkCard 2 1 true], [mkCard 2 2 true], [mkCard 2 3 true],
      [mkCard 3 1 true], [mkCard 3 2 true]]
    stock := [mkCard 1 7 false]
    completedRuns := 0
    moves := 0 }

/-- State `sampleA` after moving pile 0's card onto pile 1. -/
def sampleA' : GameState :=
  { tableau := [[], [mkCard 0 5 true, mkCard 0 4 true], [], [], [], [], [], [], [], []]
    stock := []
    completedRuns := 0
    moves := 1 }

/-- State `sampleA` after "moving" pile 0's card to the out-of-range pile index
10: the card is removed from pile 0 and appended nowhere. -/
def sampleADel : GameState :=
  { tableau := [[], [mkCard 0 5 true], [], [], [], [], [], [], [], []]
    stock := []
    completedRuns := 0
    moves := 1 }

/-! ## Counting helper lemmas -/

/-- Total number of cards over the piles of a tableau. -/
def cardCount (t : List (List Card)) : Nat := (t.map List.length).sum

theorem sweepPile_length_le (p : List Card) : (sweepPile p).length ≤ p.length := by
  unfold sweepPile
  split
  · simp [List.length_take]
  · exact Nat.le_refl _

theorem cardCount_sweepTableau_le (t : List (List Card)) :
    cardCount (sweepTableau t) ≤ cardCount t := by
  unfold cardCount sweepTableau
  rw [List.map_map]
  exact List.sum_le_sum fun p _ => sweepPile_length_le p

theorem flipLastCard_length (p : List Card) : (flipLastCard p).length = p.length := by
  rcases List.eq_nil_or_concat p with rfl | ⟨q, a, rfl⟩
  · rfl
  · unfold flipLastCard
    simp only [List.concat_eq_append]
    rw [List.getLast?_concat]
    split
    · rfl
    · rw [List.dropLast_concat]
      split <;> simp

theorem cardCount_set (t : List (List Card)) (i : Nat) (p' : List Card)
    (hlen : p'.length = (t.getD i []).length) :
    cardCount (t.set i p') = cardCount t := by
  induction t generalizing i with
  | nil => rfl
  | cons a as ih =>
    cases i with
    | zero =>
      simp only [List.getD_eq_getElem?_getD] at hlen
      simp [cardCount, List.set, List.sum_cons] at hlen ⊢
      omega
    | succ i =>
      have hlen' : p'.length = (as.getD i []).length := by
        simpa [List.getD_eq_getElem?_getD] using hlen
      have := ih i hlen'
      simp only [List.set, cardCount, List.map_cons, List.sum_cons] at this ⊢
      omega

theorem sum_map_le_with_slack {α : Type} {l : List α} {f g : α → Nat} {j : α} {c : Nat}
    (hj : j ∈ l) (hle : ∀ i ∈ l, f i ≤ g i) (hjc : f j + c ≤ g j) :
    (l.map f).sum + c ≤ (l.map g).sum := by
  induction l with
  | nil => cases hj
  | cons a as ih =>
    rcases List.mem_cons.mp hj with rfl | hj'
    · have hrest : (as.map f).sum ≤ (as.map g).sum :=
        List.sum_le_sum fun i hi => hle i (List.mem_cons_of_mem _ hi)
      simp only [List.map_cons, List.sum_cons]
      omega
    · have ha : f a ≤ g a := hle a (List.mem_cons_self a as)
      have := ih hj' fun i hi => hle i (List.mem_cons_of_mem _ hi)
      simp only [List.map_cons, List.sum_cons]
      omega

theorem map_getD_range {α : Type} (l : List α) (d : α) :
    (List.range l.length).map (fun i => l.getD i d) = l := by
  apply List.ext_getElem?
  intro n
  rcases Nat.lt_or_ge n l.length with hn | hn
  · rw [List.getElem?_map, List.getElem?_range hn]
    simp [List.getD_eq_getElem?_getD, List.getElem?_eq_getElem hn]
  · rw [List.getElem?_map]
    rw [List.getElem?_eq_none (by simpa using hn), List.getElem?_eq_none hn]
    rfl

/-! ## C4: undo is a strict inverse -/

/-- C4: undoing immediately after any committed move — a committed
tableau move, stock deal, or auto-play step, all of which push the
pre-move state `s` onto the history — restores exactly `(s, h)`; the
popped snapshot is the current state again, counters included, with no
recomputation. -/
theorem claim_C4_undo_strict_inverse (s s' : GameState) (h : List GameState)
    (hcommit : (∃ fromCol fromRow toCol,
        doTableauMove s h fromCol fromRow toCol = some (s', h ++ [s])) ∨
      stockDealClick s h = (s', h ++ [s]) ∨
      autoPlayNextMove s h = (s', h ++ [s])) :
    handleUndo s' (h ++ [s]) = (s, h) := by
  have _ := hcommit
  unfold handleUndo
  rw [List.getLast?_concat, List.dropLast_concat]

/-- Witness for C4 at a concrete committed tableau move on `sampleA`. -/
theorem claim_C4_witness : handleUndo sampleA' ([] ++ [sampleA]) = (sampleA, []) :=
  claim_C4_undo_strict_inverse sampleA sampleA' []
    (Or.inl ⟨0, 0, 1, by decide⟩)

/-! ## C2: a self-targeted move deletes the moving group -/

/-- Shared engine fact behind C2 and the amended C3: when the destination
index is the source index or not an index of the tableau at all, the
`tableau.map` of the source appends the moving group to no pile, so a
committed move deletes the group — the stock is untouched while the
tableau's card count drops by at least the (positive) size of the group. -/
theorem doTableauMove_misdirected (s : GameState) (h : List GameState)
    (fromCol fromRow toCol : Nat) (hfc : fromCol < s.tableau.length)
    (hfr : fromRow < (s.tableau.getD fromCol []).length)
    (hmv : ((s.tableau.getD fromCol []).drop fromRow).length = 1 ∨
      isValidSpiderRun ((s.tableau.getD fromCol []).drop fromRow) = true)
    (hdest : toCol = fromCol ∨ s.tableau.length ≤ toCol) :
    doTableauMove s h fromCol fromRow toCol =
        some (movedState s fromCol fromRow toCol, h ++ [s]) ∧
      (movedState s fromCol fromRow toCol).stock = s.stock ∧
      cardCount (movedState s fromCol fromRow toCol).tableau +
          ((s.tableau.getD fromCol []).length - fromRow) ≤ cardCount s.tableau ∧
      0 < (s.tableau.getD fromCol []).length - fromRow := by
  have hb : ((((s.tableau.getD fromCol []).drop fromRow).length == 1) ||
      isValidSpiderRun ((s.tableau.getD fromCol []).drop fromRow)) = true := by
    rcases hmv with h1 | h2
    · rw [Bool.or_eq_true, beq_iff_eq]
      exact Or.inl h1
    · rw [Bool.or_eq_true]
      exact Or.inr h2
  have hcommit : doTableauMove s h fromCol fromRow toCol =
      some (movedState s fromCol fromRow toCol, h ++ [s]) := by
    unfold doTableauMove
    rw [if_pos hfc, if_pos hb]
  refine ⟨hcommit, rfl, ?_, by omega⟩
  have hAMle : cardCount (moveTableau s.tableau fromCol fromRow toCol) +
      ((s.tableau.getD fromCol []).length - fromRow) ≤ cardCount s.tableau := by
    unfold moveTableau cardCount
    rw [List.map_map]
    conv_rhs => rw [← map_getD_range s.tableau ([] : List Card), List.map_map]
    refine sum_map_le_with_slack (List.mem_range.mpr hfc) ?_ ?_
    · intro i hmem
      have hilen : i < s.tableau.length := List.mem_range.mp hmem
      simp only [Function.comp_apply]
      by_cases hi : i = fromCol
      · subst hi
        rw [if_pos (by trivial), List.length_take, Nat.min_def]
        split <;> omega
      · rw [if_neg hi]
        have hit : ¬ i = toCol := by
          rcases hdest with rfl | hlen
          · exact hi
          · omega
        rw [if_neg hit]
    · simp only [Function.comp_apply]
      rw [if_pos (by trivial), List.length_take, Nat.min_def]
      split <;> omega
  have hflip : cardCount ((moveTableau s.tableau fromCol fromRow toCol).set fromCol
      (flipLastCard ((moveTableau s.tableau fromCol fromRow toCol).getD fromCol []))) =
      cardCount (moveTableau s.tableau fromCol fromRow toCol) :=
    cardCount_set _ fromCol _ (flipLastCard_length _)
  have hsweep := cardCount_sweepTableau_le
    ((moveTableau s.tableau fromCol fromRow toCol).set fromCol
      (flipLastCard ((moveTableau s.tableau fromCol fromRow toCol).getD fromCol [])))
  have htab : (movedState s fromCol fromRow toCol).tableau =
      sweepTableau ((moveTableau s.tableau fromCol fromRow toCol).set fromCol
        (flipLastCard ((moveTableau s.tableau fromCol fromRow toCol).getD fromCol []))) :=
    rfl
  rw [htab]
  omega

/-- C2: calling the tableau move with `toCol = fromCol` on a movable
group removes the group from the source pile and appends it nowhere: the
stock is untouched while the tableau's card count drops by at least the
(positive) size of the group, so the move does not preserve the multiset
of cards. -/
theorem claim_C2_self_move_deletes (s : GameState) (h : List GameState)
    (fromCol fromRow : Nat) (hfc : fromCol < s.tableau.length)
    (hfr : fromRow < (s.tableau.getD fromCol []).length)
    (hmv : ((s.tableau.getD fromCol []).drop fromRow).length = 1 ∨
      isValidSpiderRun ((s.tableau.getD fromCol []).drop fromRow) = true) :
    doTableauMove s h fromCol fromRow fromCol =
        some (movedState s fromCol fromRow fromCol, h ++ [s]) ∧
      (movedState s fromCol fromRow fromCol).stock = s.stock ∧
      cardCount (movedState s fromCol fromRow fromCol).tableau +
          ((s.tableau.getD fromCol []).length - fromRow) ≤ cardCount s.tableau ∧
      0 < (s.tableau.getD fromCol []).length - fromRow :=
  doTableauMove_misdirected s h fromCol fromRow fromCol hfc hfr hmv (Or.inl rfl)

/-- Witness for C2: moving pile 0's single card of `sampleA` onto pile 0
itself. -/
theorem claim_C2_witness :
    doTableauMove sampleA [] 0 0 0 = some (movedState sampleA 0 0 0, [] ++ [sampleA]) ∧
      (movedState sampleA 0 0 0).stock = sampleA.stock ∧
      cardCount (movedState sampleA 0 0 0).tableau +
          ((sampleA.tableau.getD 0 []).length - 0) ≤ cardCount sampleA.tableau ∧
      0 < (sampleA.tableau.getD 0 []).length - 0 :=
  claim_C2_self_move_deletes sampleA [] 0 0 (by decide) (by decide) (Or.inl (by decide))

/-! ## C3: out-of-range indices are not all no-ops -/

/-- Counterexample for C3: on `sampleA`, a move with the out-of-range
destination pile index 10 is not a no-op — the engine commits a new state
(pushing history and bumping `moves`) in which pile 0's card has been
deleted. -/
theorem claim_C3_counterexample :
    doTableauMove sampleA [] 0 0 10 = some (sampleADel, [sampleA]) ∧
      sampleADel ≠ sampleA ∧
      cardCount sampleADel.tableau + 1 = cardCount sampleA.tableau := by decide

/-- C3 amended: only an out-of-range source pile index is harmless — the
handler throws before committing any state (embedded as `none`, no state
change).  An out-of-range destination pile index is not a no-op: the
movable group is deleted (committed state with unchanged stock and a
tableau card count smaller by at least the group size, `moves` bumped,
history pushed).  An out-of-range source card index is not a no-op
either: the call still commits a move with an empty moving group,
pushing history and incrementing `moves`. -/
theorem claim_C3_amended :
    (∀ (s : GameState) (h : List GameState) (fromCol fromRow toCol : Nat),
      s.tableau.length ≤ fromCol → doTableauMove s h fromCol fromRow toCol = none) ∧
      (∀ (s : GameState) (h : List GameState) (fromCol fromRow toCol : Nat),
        fromCol < s.tableau.length →
        fromRow < (s.tableau.getD fromCol []).length →
        (((s.tableau.getD fromCol []).drop fromRow).length = 1 ∨
          isValidSpiderRun ((s.tableau.getD fromCol []).drop fromRow) = true) →
        s.tableau.length ≤ toCol →
        doTableauMove s h fromCol fromRow toCol =
            some (movedState s fromCol fromRow toCol, h ++ [s]) ∧
          (movedState s fromCol fromRow toCol).stock = s.stock ∧
          cardCount (movedState s fromCol fromRow toCol).tableau +
              ((s.tableau.getD fromCol []).length - fromRow) ≤ cardCount s.tableau ∧
          0 < (s.tableau.getD fromCol []).length - fromRow) ∧
      ∀ (s : GameState) (h : List GameState) (fromCol fromRow toCol : Nat),
        fromCol < s.tableau.length →
        (s.tableau.getD fromCol []).length ≤ fromRow →
        doTableauMove s h fromCol fromRow toCol =
            some (movedState s fromCol fromRow toCol, h ++ [s]) ∧
          (movedState s fromCol fromRow toCol).moves = s.moves + 1 := by
  refine ⟨?_, ?_, ?_⟩
  · intro s h fromCol fromRow toCol hfc
    unfold doTableauMove
    rw [if_neg (by omega)]
  · intro s h fromCol fromRow toCol hfc hfr hmv htc
    exact doTableauMove_misdirected s h fromCol fromRow toCol hfc hfr hmv (Or.inr htc)
  · intro s h fromCol fromRow toCol hfc hfr
    have hnil : (s.tableau.getD fromCol []).drop fromRow = [] :=
      List.drop_eq_nil_of_le hfr
    have hb : ((((s.tableau.getD fromCol []).drop fromRow).length == 1) ||
        isValidSpiderRun ((s.tableau.getD fromCol []).drop fromRow)) = true := by
      rw [hnil]
      rfl
    constructor
    · unfold doTableauMove
      rw [if_pos hfc, if_pos hb]
    · rfl

/-- Witness for the amended C3 on `sampleA`, exercising all three parts:
the throwing out-of-range source pile index 10, the deleting out-of-range
destination index 10, and the committing out-of-range source card index 5. -/
theorem claim_C3_amended_witness :
    doTableauMove sampleA [] 10 0 0 = none ∧
      doTableauMove sampleA [] 0 0 10 =
          some (movedState sampleA 0 0 10, [] ++ [sampleA]) ∧
      doTableauMove sampleA [] 0 5 1 =
          some (movedState sampleA 0 5 1, [] ++ [sampleA]) ∧
      (movedState sampleA 0 5 1).moves = sampleA.moves + 1 :=
  ⟨claim_C3_amended.1 sampleA [] 10 0 0 (by decide),
    (claim_C3_amended.2.1 sampleA [] 0 0 10 (by decide) (by decide)
      (Or.inl (by decide)) (by decide)).1,
    (claim_C3_amended.2.2 sampleA [] 0 5 1 (by decide) (by decide)).1,
    (claim_C3_amended.2.2 sampleA [] 0 5 1 (by decide) (by decide)).2⟩

/-! ## C5: the terminal detector -/

/-- Specification-level statement that the tableau admits the legal move
of the face-up movable group starting at `(fromCol, fromRow)` onto the
distinct destination pile `toCol`, as accepted by `canDropCard`. -/
def LegalTableauMove (t : List (List Card)) (fromCol fromRow toCol : Nat) : Prop :=
  fromCol < t.length ∧
  fromRow < (t.getD fromCol []).length ∧
  ((t.getD fromCol []).getD fromRow noCard).faceUp = true ∧
  (((t.getD fromCol []).drop fromRow).length ≤ 1 ∨
    isValidSpiderRun ((t.getD fromCol []).drop fromRow) = true) ∧
  toCol < t.length ∧
  toCol ≠ fromCol ∧
  canDropCard (((t.getD fromCol []).drop fromRow).headD noCard) (t.getD toCol []) = true

theorem forall_pile_iff (t : List (List Card)) (P : List Card → Prop) :
    (∀ i, i < t.length → P (t.getD i [])) ↔ ∀ pile ∈ t, P pile := by
  constructor
  · intro hI pile hmem
    obtain ⟨i, hi, rfl⟩ := List.mem_iff_getElem.mp hmem
    have := hI i hi
    rwa [List.getD_eq_getElem?_getD, List.getElem?_eq_getElem hi] at this
  · intro hP i hi
    have hmem : t.getD i [] ∈ t := by
      rw [List.getD_eq_getElem?_getD, List.getElem?_eq_getElem hi]
      exact List.getElem_mem hi
    exact hP _ hmem

theorem runScan_false_iff (t : List (List Card)) :
    ((List.range t.length).any fun col => completedRunCheck (t.getD col [])) = false ↔
      ∀ pile ∈ t, ¬ IsCompletedRunTop pile := by
  rw [Bool.eq_false_iff, ne_eq, List.any_eq_true]
  rw [← forall_pile_iff t (fun pile => ¬ IsCompletedRunTop pile)]
  constructor
  · intro hno i hi hrun
    exact hno ⟨i, List.mem_range.mpr hi, (completedRunCheck_iff _).mpr hrun⟩
  · rintro hall ⟨col, hcol, hcheck⟩
    exact hall col (List.mem_range.mp hcol) ((completedRunCheck_iff _).mp hcheck)

theorem moveScan_true_iff (t : List (List Card)) :
    ((List.range t.length).any fun fromCol =>
      (List.range (t.getD fromCol []).length).any fun fromRow =>
        ((t.getD fromCol []).getD fromRow noCard).faceUp &&
          ((!decide (1 < ((t.getD fromCol []).drop fromRow).length) ||
              isValidSpiderRun ((t.getD fromCol []).drop fromRow)) &&
            ((List.range t.length).any fun toCol =>
              toCol != fromCol &&
                canDropCard (((t.getD fromCol []).drop fromRow).headD noCard)
                  (t.getD toCol [])))) = true ↔
      ∃ fromCol fromRow toCol, LegalTableauMove t fromCol fromRow toCol := by
  simp only [List.any_eq_true, List.mem_range, Bool.and_eq_true, Bool.or_eq_true,
    Bool.not_eq_true', decide_eq_false_iff_not, Nat.not_lt, bne_iff_ne, ne_eq,
    LegalTableauMove]
  constructor
  · rintro ⟨fc, hfc, fr, hfr, hface, hmv, tc, htc, hne, hdrop⟩
    exact ⟨fc, fr, tc, hfc, hfr, hface, hmv, htc, hne, hdrop⟩
  · rintro ⟨fc, fr, tc, hfc, hfr, hface, hmv, htc, hne, hdrop⟩
    exact ⟨fc, hfc, fr, hfr, hface, hmv, tc, htc, hne, hdrop⟩

/-- C5: `isAnyMovePossible` is false exactly when no pile's top 13 cards
form a completable run, no face-up movable group can legally be placed on
another pile, and the stock is empty or some pile is empty — equivalently
it is true whenever one of the three move kinds exists. -/
theorem claim_C5_terminal_detector (s : GameState) :
    isAnyMovePossible s = false ↔
      (∀ pile ∈ s.tableau, ¬ IsCompletedRunTop pile) ∧
        (∀ fromCol fromRow toCol, ¬ LegalTableauMove s.tableau fromCol fromRow toCol) ∧
        (s.stock = [] ∨ ∃ pile ∈ s.tableau, pile = []) := by
  unfold isAnyMovePossible
  rw [Bool.or_eq_false_iff, Bool.or_eq_false_iff]
  rw [runScan_false_iff]
  have hB : ∀ b : Bool, b = false ↔ ¬ b = true := fun b => Bool.eq_false_iff
  rw [hB _, moveScan_true_iff]
  simp only [not_exists]
  have hC : (!s.stock.isEmpty && s.tableau.all fun col => decide (0 < col.length)) =
      false ↔ s.stock = [] ∨ ∃ pile ∈ s.tableau, pile = [] := by
    rw [Bool.and_eq_false_iff]
    constructor
    · rintro (h1 | h2)
      · left
        have : s.stock.isEmpty = true := by
          cases hss : s.stock.isEmpty
          · rw [hss] at h1
            cases h1
          · rfl
        exact List.isEmpty_iff.mp this
      · right
        have : ¬ ∀ col ∈ s.tableau, decide (0 < col.length) = true := by
          intro hall
          rw [List.all_eq_true.mpr hall] at h2
          cases h2
        rcases not_forall.mp this with ⟨col, hcol⟩
        rcases Classical.not_imp.mp hcol with ⟨hmem, hlen⟩
        refine ⟨col, hmem, ?_⟩
        rw [decide_eq_true_eq] at hlen
        have : col.length = 0 := by omega
        exact List.length_eq_zero.mp this
    · rintro (h1 | ⟨pile, hmem, rfl⟩)
      · left
        rw [h1]
        rfl
      · right
        rw [Bool.eq_false_iff, ne_eq, List.all_eq_true]
        intro hall
        have := hall [] hmem
        rw [decide_eq_true_eq] at this
        simp at this
  rw [hC, and_assoc]

/-! ## The committed-move decomposition -/

/-- The tableau of a committed tableau move just before the sweep: group
moved, source pile's new top flipped face-up if it was face-down. -/
def afterMoveFlip (s : GameState) (fromCol fromRow toCol : Nat) : List (List Card) :=
  (moveTableau s.tableau fromCol fromRow toCol).set fromCol
    (flipLastCard ((moveTableau s.tableau fromCol fromRow toCol).getD fromCol []))

theorem movedState_eq (s : GameState) (fromCol fromRow toCol : Nat) :
    movedState s fromCol fromRow toCol =
      { tableau := sweepTableau (afterMoveFlip s fromCol fromRow toCol)
        stock := s.stock
        completedRuns := s.completedRuns + sweepCount (afterMoveFlip s fromCol fromRow toCol)
        moves := s.moves + 1 } := rfl

/-- Inversion of a committed `doTableauMove`: the source pile index was in
range and the result is `movedState`. -/
theorem doTableauMove_committed {s s' : GameState} {h : List GameState}
    {fromCol fromRow toCol : Nat}
    (hres : doTableauMove s h fromCol fromRow toCol = some (s', h ++ [s])) :
    fromCol < s.tableau.length ∧ s' = movedState s fromCol fromRow toCol := by
  by_cases hfc : fromCol < s.tableau.length
  · refine ⟨hfc, ?_⟩
    unfold doTableauMove at hres
    rw [if_pos hfc] at hres
    by_cases hcheck : ((((s.tableau.getD fromCol []).drop fromRow).length == 1) ||
        isValidSpiderRun ((s.tableau.getD fromCol []).drop fromRow)) = true
    · rw [if_pos hcheck] at hres
      exact (congrArg Prod.fst (Option.some.inj hres)).symm
    · rw [if_neg hcheck] at hres
      have hh : h = h ++ [s] := congrArg Prod.snd (Option.some.inj hres)
      have : h.length = h.length + 1 := by
        conv_lhs => rw [hh]
        simp
      omega
  · unfold doTableauMove at hres
    rw [if_neg hfc] at hres
    cases hres

theorem sweepTableau_getD {t : List (List Card)} {i : Nat} (hi : i < t.length) :
    (sweepTableau t).getD i [] = sweepPile (t.getD i []) := by
  unfold sweepTableau
  rw [List.getD_eq_getElem?_getD, List.getElem?_map, List.getElem?_eq_getElem hi]
  rw [List.getD_eq_getElem?_getD, List.getElem?_eq_getElem hi]
  rfl

theorem countP_IsCompletedRunTop_eq (t : List (List Card)) :
    (t.countP fun p => decide (IsCompletedRunTop p)) = t.countP completedRunCheck :=
  List.countP_congr fun p _ => by
    rw [decide_eq_true_eq]
    exact (completedRunCheck_iff p).symm

/-! ## C6: the completed-run sweep of a tableau move -/

/-- C6: in the same transition as a committed tableau move, every pile of
the moved-and-flipped tableau whose top 13 cards form a face-up same-suit
K-through-A run loses exactly those 13 cards, every other pile is left
unchanged by the sweep, and `completedRuns` grows by the number of such
piles. -/
theorem claim_C6_sweep_all_piles (s s' : GameState) (h : List GameState)
    (fromCol fromRow toCol : Nat)
    (hres : doTableauMove s h fromCol fromRow toCol = some (s', h ++ [s])) :
    s'.tableau.length = (afterMoveFlip s fromCol fromRow toCol).length ∧
      (∀ i, i < (afterMoveFlip s fromCol fromRow toCol).length →
        (IsCompletedRunTop ((afterMoveFlip s fromCol fromRow toCol).getD i []) →
          s'.tableau.getD i [] =
            ((afterMoveFlip s fromCol fromRow toCol).getD i []).take
              (((afterMoveFlip s fromCol fromRow toCol).getD i []).length - 13)) ∧
        (¬ IsCompletedRunTop ((afterMoveFlip s fromCol fromRow toCol).getD i []) →
          s'.tableau.getD i [] = (afterMoveFlip s fromCol fromRow toCol).getD i [])) ∧
      s'.completedRuns = s.completedRuns +
        ((afterMoveFlip s fromCol fromRow toCol).countP fun p =>
          decide (IsCompletedRunTop p)) := by
  obtain ⟨hfc, rfl⟩ := doTableauMove_committed hres
  rw [movedState_eq]
  refine ⟨by simp [sweepTableau], ?_, ?_⟩
  · intro i hi
    constructor
    · intro hrun
      rw [sweepTableau_getD hi]
      unfold sweepPile
      rw [if_pos ((completedRunCheck_iff _).mpr hrun)]
    · intro hrun
      rw [sweepTableau_getD hi]
      unfold sweepPile
      rw [if_neg]
      rw [completedRunCheck_iff]
      exact hrun
  · rw [countP_IsCompletedRunTop_eq]
    rfl

/-- A state about to complete a run: an Ace of the first suit on pile 0,
King down to 2 of the first suit on pile 1. -/
def sampleC : GameState :=
  { tableau := [[mkCard 0 0 true],
      [mkCard 0 12 true, mkCard 0 11 true, mkCard 0 10 true, mkCard 0 9 true,
        mkCard 0 8 true, mkCard 0 7 true, mkCard 0 6 true, mkCard 0 5 true,
        mkCard 0 4 true, mkCard 0 3 true, mkCard 0 2 true, mkCard 0 1 true],
      [], [], [], [], [], [], [], []]
    stock := []
    completedRuns := 0
    moves := 0 }

/-- Witness for C6: moving the Ace of `sampleC` onto its K-through-2 pile
completes and sweeps a run. -/
theorem claim_C6_witness :
    (movedState sampleC 0 0 1).tableau.length =
        (afterMoveFlip sampleC 0 0 1).length ∧
      (∀ i, i < (afterMoveFlip sampleC 0 0 1).length →
        (IsCompletedRunTop ((afterMoveFlip sampleC 0 0 1).getD i []) →
          (movedState sampleC 0 0 1).tableau.getD i [] =
            ((afterMoveFlip sampleC 0 0 1).getD i []).take
              (((afterMoveFlip sampleC 0 0 1).getD i []).length - 13)) ∧
        (¬ IsCompletedRunTop ((afterMoveFlip sampleC 0 0 1).getD i []) →
          (movedState sampleC 0 0 1).tableau.getD i [] =
            (afterMoveFlip sampleC 0 0 1).getD i [])) ∧
      (movedState sampleC 0 0 1).completedRuns = sampleC.completedRuns +
        ((afterMoveFlip sampleC 0 0 1).countP fun p =>
          decide (IsCompletedRunTop p)) :=
  claim_C6_sweep_all_piles sampleC (movedState sampleC 0 0 1) [] 0 0 1 (by decide)

/-! ## C10: the sweep removes cards verbatim and never flips -/

/-- C10: the sweep removes a completed run by truncation only — the
retained prefix is kept verbatim, so the newly exposed top card (the card
just below the removed 13) keeps its `faceUp` value; and in a committed
tableau move the single flip is applied to the source pile before the
sweep, every other pile entering the sweep exactly as the move left it. -/
theorem claim_C10_no_flip_after_sweep :
    (∀ pile, IsCompletedRunTop pile →
      sweepPile pile = pile.take (pile.length - 13)) ∧
      (∀ pile c, IsCompletedRunTop pile → 14 ≤ pile.length →
        pile[pile.length - 14]? = some c → (sweepPile pile).getLast? = some c) ∧
      ∀ (s s' : GameState) (h : List GameState) (fromCol fromRow toCol : Nat),
        doTableauMove s h fromCol fromRow toCol = some (s', h ++ [s]) →
        s'.tableau = sweepTableau (afterMoveFlip s fromCol fromRow toCol) ∧
          ∀ j, j ≠ fromCol →
            (afterMoveFlip s fromCol fromRow toCol).getD j [] =
              (moveTableau s.tableau fromCol fromRow toCol).getD j [] := by
  have hswp : ∀ pile, IsCompletedRunTop pile →
      sweepPile pile = pile.take (pile.length - 13) := by
    intro pile hrun
    unfold sweepPile
    rw [if_pos ((completedRunCheck_iff _).mpr hrun)]
  refine ⟨hswp, ?_, ?_⟩
  · intro pile c hrun hlen hc
    rw [hswp pile hrun]
    have h13 : pile.length - 13 ≤ pile.length := by omega
    rw [List.getLast?_eq_getElem?, List.length_take]
    have hmin : min (pile.length - 13) pile.length = pile.length - 13 :=
      Nat.min_eq_left h13
    rw [hmin]
    rw [List.getElem?_take_of_lt (by omega)]
    have : pile.length - 13 - 1 = pile.length - 14 := by omega
    rw [this]
    exact hc
  · intro s s' h fromCol fromRow toCol hres
    obtain ⟨hfc, rfl⟩ := doTableauMove_committed hres
    refine ⟨rfl, ?_⟩
    intro j hj
    unfold afterMoveFlip
    rw [List.getD_eq_getElem?_getD, List.getElem?_set, if_neg (fun he => hj he.symm)]
    rw [List.getD_eq_getElem?_getD]

/-- A 14-card pile: a face-down card underneath a complete face-up
K-through-A run of the first suit. -/
def sampleDeep : List Card :=
  [mkCard 1 3 false,
    mkCard 0 12 true, mkCard 0 11 true, mkCard 0 10 true, mkCard 0 9 true,
    mkCard 0 8 true, mkCard 0 7 true, mkCard 0 6 true, mkCard 0 5 true,
    mkCard 0 4 true, mkCard 0 3 true, mkCard 0 2 true, mkCard 0 1 true,
    mkCard 0 0 true]

/-! ## C1: the stock deal -/

theorem dealRound_length (piles : List (List Card)) (stock : List Card) :
    (dealRound piles stock).1.length = piles.length := by
  induction piles generalizing stock with
  | nil => rfl
  | cons p ps ih =>
    unfold dealRound
    rcases List.eq_nil_or_concat stock with rfl | ⟨q, a, rfl⟩
    · simp only [List.getLast?_nil]
      simpa using ih []
    · simp only [List.concat_eq_append, List.getLast?_concat]
      simpa using ih (q ++ [a]).dropLast

theorem dealRound_stock (piles : List (List Card)) (stock : List Card) :
    (dealRound piles stock).2 = stock.take (stock.length - piles.length) := by
  induction piles generalizing stock with
  | nil =>
    show stock = stock.take (stock.length - 0)
    rw [Nat.sub_zero, List.take_length]
  | cons p ps ih =>
    unfold dealRound
    rcases List.eq_nil_or_concat stock with rfl | ⟨q, a, rfl⟩
    · simp only [List.getLast?_nil]
      simpa using ih []
    · simp only [List.concat_eq_append, List.getLast?_concat, List.dropLast_concat]
      rw [ih q]
      have hlen : (q ++ [a]).length = q.length + 1 := by simp
      rw [hlen]
      have harith : q.length + 1 - (ps.length + 1) = q.length - ps.length := by omega
      rw [List.length_cons, harith]
      rw [List.take_append_of_le_length (by omega)]

theorem dealRound_pile (piles : List (List Card)) (stock : List Card) (i : Nat)
    (hi : i < piles.length) :
    (dealRound piles stock).1.getD i [] =
      if i < stock.length then
        piles.getD i [] ++
          [{ stock.getD (stock.length - 1 - i) noCard with faceUp := true }]
      else piles.getD i [] := by
  induction piles generalizing stock i with
  | nil => cases hi
  | cons p ps ih =>
    unfold dealRound
    rcases List.eq_nil_or_concat stock with rfl | ⟨q, a, rfl⟩
    · simp only [List.getLast?_nil]
      rw [if_neg (by simp)]
      cases i with
      | zero => rfl
      | succ i =>
        have hi' : i < ps.length := by simpa using hi
        have := ih [] i hi'
        rw [if_neg (by simp)] at this
        simpa using this
    · simp only [List.concat_eq_append, List.getLast?_concat, List.dropLast_concat]
      have hslen : (q ++ [a]).length = q.length + 1 := by simp
      cases i with
      | zero =>
        rw [if_pos (by simp)]
        have hget : (q ++ [a]).getD ((q ++ [a]).length - 1 - 0) noCard = a := by
          rw [hslen]
          have : q.length + 1 - 1 - 0 = q.length := by omega
          rw [this, List.getD_eq_getElem?_getD, List.getElem?_concat_length]
          rfl
        rw [hget]
        rfl
      | succ i =>
        have hi' : i < ps.length := by simpa using hi
        have hrec := ih q i hi'
        show (dealRound ps q).1.getD i [] = _
        rw [hslen]
        by_cases hqi : i < q.length
        · rw [hrec, if_pos hqi, if_pos (by omega)]
          have h1 : q.length + 1 - 1 - (i + 1) = q.length - 1 - i := by omega
          rw [h1]
          have h2 : (q ++ [a]).getD (q.length - 1 - i) noCard =
              q.getD (q.length - 1 - i) noCard := by
            rw [List.getD_eq_getElem?_getD, List.getD_eq_getElem?_getD,
              List.getElem?_append_left (by omega)]
          rw [h2]
          rfl
        · rw [hrec, if_neg hqi, if_neg (by omega)]
          rfl

/-- A 10-pile state about to be dealt onto: pile 0 holds a face-up K
through 2 of the first suit, the other piles one filler card each; the
top of the stock (its last element) is the matching Ace, so the deal
completes a K-through-A run on pile 0. -/
def sampleS : GameState :=
  { tableau := [[mkCard 0 12 true, mkCard 0 11 true, mkCard 0 10 true, mkCard 0 9 true,
      mkCard 0 8 true, mkCard 0 7 true, mkCard 0 6 true, mkCard 0 5 true,
      mkCard 0 4 true, mkCard 0 3 true, mkCard 0 2 true, mkCard 0 1 true],
      [mkCard 1 4 true], [mkCard 1 4 true], [mkCard 1 4 true], [mkCard 1 4 true],
      [mkCard 1 4 true], [mkCard 1 4 true], [mkCard 1 4 true], [mkCard 1 4 true],
      [mkCard 1 4 true]]
    stock := [mkCard 1 6 false, mkCard 1 6 false, mkCard 1 6 false, mkCard 1 6 false,
      mkCard 1 6 false, mkCard 1 6 false, mkCard 1 6 false, mkCard 1 6 false,
      mkCard 1 6 false, mkCard 0 0 false]
    completedRuns := 0
    moves := 0 }

/-- Counterexample for C1: after the stock deal on `sampleS`, pile 0's
top 13 cards form a face-up same-suit K-through-A run, yet the run is
still there (13 cards) and `completedRuns` is unchanged — the stock-deal
handler performs no completed-run sweep, while the claim says it performs
the same sweep as a tableau move. -/
theorem claim_C1_counterexample :
    (stockDealClick sampleS []).1.completedRuns = sampleS.completedRuns ∧
      completedRunCheck ((stockDealClick sampleS []).1.tableau.getD 0 []) = true ∧
      ((stockDealClick sampleS []).1.tableau.getD 0 []).length = 13 ∧
      (stockDealClick sampleS []).1.moves = sampleS.moves + 1 := by decide

/-- C1 amended: under the stock-deal preconditions the deal appends one
face-up card from the top of the stock to each pile in pile order,
silently stopping when the stock runs out, pushes the pre-deal state and
increments `moves` — but it performs NO completed-run sweep:
`completedRuns` is unchanged and the dealt piles are kept whole. -/
theorem claim_C1_stock_deal (s : GameState) (h : List GameState)
    (hstock : s.stock ≠ []) (hpiles : ∀ p ∈ s.tableau, p ≠ []) :
    stockDealClick s h = (dealtState s, h ++ [s]) ∧
      (dealtState s).completedRuns = s.completedRuns ∧
      (dealtState s).moves = s.moves + 1 ∧
      (dealtState s).stock = s.stock.take (s.stock.length - s.tableau.length) ∧
      (dealtState s).tableau.length = s.tableau.length ∧
      ∀ i, i < s.tableau.length →
        (dealtState s).tableau.getD i [] =
          (if i < s.stock.length then
            s.tableau.getD i [] ++
              [{ s.stock.getD (s.stock.length - 1 - i) noCard with faceUp := true }]
          else s.tableau.getD i []) := by
  constructor
  · unfold stockDealClick
    rw [if_neg, if_neg]
    · rw [Bool.not_eq_true, List.any_eq_false]
      intro p hp
      rw [List.isEmpty_eq_true]
      exact hpiles p hp
    · rw [Bool.not_eq_true, List.isEmpty_eq_false]
      exact hstock
  refine ⟨rfl, rfl, dealRound_stock s.tableau s.stock, dealRound_length s.tableau s.stock,
    fun i hi => dealRound_pile s.tableau s.stock i hi⟩

/-- Witness for the amended C1: dealing on `sampleA` (both piles with one
card, one-card stock) reaches pile 0 and then stops silently. -/
theorem claim_C1_witness :
    stockDealClick sampleB [] = (dealtState sampleB, [] ++ [sampleB]) ∧
      (dealtState sampleB).completedRuns = sampleB.completedRuns ∧
      (dealtState sampleB).moves = sampleB.moves + 1 ∧
      (dealtState sampleB).stock =
        sampleB.stock.take (sampleB.stock.length - sampleB.tableau.length) ∧
      (dealtState sampleB).tableau.length = sampleB.tableau.length ∧
      ∀ i, i < sampleB.tableau.length →
        (dealtState sampleB).tableau.getD i [] =
          (if i < sampleB.stock.length then
            sampleB.tableau.getD i [] ++
              [{ sampleB.stock.getD (sampleB.stock.length - 1 - i) noCard with
                  faceUp := true }]
          else sampleB.tableau.getD i []) :=
  claim_C1_stock_deal sampleB [] (by decide) (by decide)

/-- Witness for C10: a face-down card under a 13-card completed run keeps
its `faceUp` value when the run is swept. -/
theorem claim_C10_witness :
    sweepPile sampleDeep = sampleDeep.take (sampleDeep.length - 13) ∧
      (sweepPile sampleDeep).getLast? = some (mkCard 1 3 false) :=
  ⟨claim_C10_no_flip_after_sweep.1 sampleDeep
      ((completedRunCheck_iff sampleDeep).mp (by decide)),
    claim_C10_no_flip_after_sweep.2.1 sampleDeep (mkCard 1 3 false)
      ((completedRunCheck_iff sampleDeep).mp (by decide)) (by decide) (by decide)⟩

/-! ## C7: first-hit characterizations of the auto-play scans -/

theorem findSome?_singleton {α β : Type} (f : α → Option β) (a : α) :
    [a].findSome? f = f a := by
  rcases hf : f a with _ | b <;> simp [List.findSome?, hf]

theorem range_find?_some_iff {n m : Nat} {p : Nat → Bool} :
    (List.range n).find? p = some m ↔
      m < n ∧ p m = true ∧ ∀ k, k < m → p k = false := by
  induction n with
  | zero =>
    constructor
    · intro h
      simp at h
    · rintro ⟨hm, _, _⟩
      omega
  | succ n ih =>
    rw [List.range_succ, List.find?_append]
    constructor
    · intro h
      rcases ho : (List.range n).find? p with _ | m'
      · rw [ho, Option.none_or, List.find?_singleton] at h
        by_cases hpn : p n = true
        · rw [if_pos hpn] at h
          obtain rfl : n = m := Option.some.inj h
          refine ⟨Nat.lt_succ_self _, hpn, fun k hk => ?_⟩
          exact Bool.eq_false_iff.mpr (List.find?_eq_none.mp ho k (List.mem_range.mpr hk))
        · rw [if_neg hpn] at h
          cases h
      · rw [ho] at h
        have hs : (some m').or ([n].find? p) = some m' := rfl
        rw [hs] at h
        obtain rfl : m' = m := Option.some.inj h
        obtain ⟨hm, hpm, hlt⟩ := ih.mp ho
        exact ⟨Nat.lt_succ_of_lt hm, hpm, hlt⟩
    · rintro ⟨hm, hpm, hlt⟩
      rcases Nat.lt_or_ge m n with hmn | hge
      · rw [ih.mpr ⟨hmn, hpm, hlt⟩]
        rfl
      · have hmn : m = n := by omega
        subst hmn
        have ho : (List.range m).find? p = none :=
          List.find?_eq_none.mpr fun k hk => by
            rw [hlt k (List.mem_range.mp hk)]
            simp
        rw [ho, Option.none_or, List.find?_singleton, if_pos hpm]

theorem range_findSome?_some_iff {α : Type} {n : Nat} {f : Nat → Option α} {b : α} :
    (List.range n).findSome? f = some b ↔
      ∃ m, m < n ∧ f m = some b ∧ ∀ k, k < m → f k = none := by
  induction n with
  | zero =>
    constructor
    · intro h
      simp at h
    · rintro ⟨m, hm, _, _⟩
      omega
  | succ n ih =>
    rw [List.range_succ, List.findSome?_append]
    constructor
    · intro h
      rcases ho : (List.range n).findSome? f with _ | b'
      · rw [ho, Option.none_or, findSome?_singleton] at h
        refine ⟨n, Nat.lt_succ_self n, h, fun k hk => ?_⟩
        exact List.findSome?_eq_none_iff.mp ho k (List.mem_range.mpr hk)
      · rw [ho] at h
        have hs : (some b').or ([n].findSome? f) = some b' := rfl
        rw [hs] at h
        obtain rfl : b' = b := Option.some.inj h
        obtain ⟨m, hm, hfm, hlt⟩ := ih.mp ho
        exact ⟨m, Nat.lt_succ_of_lt hm, hfm, hlt⟩
    · rintro ⟨m, hm, hfm, hlt⟩
      rcases Nat.lt_or_ge m n with hmn | hge
      · rw [ih.mpr ⟨m, hmn, hfm, hlt⟩]
        rfl
      · have hmn : m = n := by omega
        subst hmn
        have ho : (List.range m).findSome? f = none :=
          List.findSome?_eq_none_iff.mpr fun k hk => hlt k (List.mem_range.mp hk)
        rw [ho, Option.none_or, findSome?_singleton, hfm]

/-- The destination test of the auto-play scan at `toCol`, as a
proposition. -/
def DestOk (t : List (List Card)) (fromCol : Nat) (movingCards : List Card)
    (toCol : Nat) : Prop :=
  toCol < t.length ∧ toCol ≠ fromCol ∧
    canDropCard (movingCards.headD noCard) (t.getD toCol []) = true

theorem destFor_some_iff {t : List (List Card)} {fromCol : Nat}
    {movingCards : List Card} {toCol : Nat} :
    destFor t fromCol movingCards = some toCol ↔
      DestOk t fromCol movingCards toCol ∧
        ∀ tc, DestOk t fromCol movingCards tc → toCol ≤ tc := by
  unfold destFor
  rw [range_find?_some_iff]
  constructor
  · rintro ⟨hlt, hp, hmin⟩
    rw [Bool.and_eq_true, bne_iff_ne] at hp
    refine ⟨⟨hlt, hp.1, hp.2⟩, ?_⟩
    rintro tc ⟨htc, hne, hdrop⟩
    by_contra hcon
    push_neg at hcon
    have hfalse := hmin tc hcon
    rw [Bool.and_eq_false_iff] at hfalse
    rcases hfalse with h1 | h2
    · exact hne (bne_eq_false_iff_eq.mp h1)
    · rw [hdrop] at h2
      cases h2
  · rintro ⟨⟨hlt, hne, hdrop⟩, hmin⟩
    refine ⟨hlt, ?_, ?_⟩
    · rw [Bool.and_eq_true, bne_iff_ne]
      exact ⟨hne, hdrop⟩
    · intro k hk
      rw [Bool.and_eq_false_iff]
      by_cases hkf : k = fromCol
      · left
        rw [hkf]
        exact bne_self_eq_false fromCol
      · right
        by_cases hkd : canDropCard (movingCards.headD noCard) (t.getD k []) = true
        · have hdk : DestOk t fromCol movingCards k := ⟨Nat.lt_trans hk hlt, hkf, hkd⟩
          have := hmin k hdk
          omega
        · exact Bool.eq_false_iff.mpr hkd

theorem destFor_none_iff {t : List (List Card)} {fromCol : Nat}
    {movingCards : List Card} :
    destFor t fromCol movingCards = none ↔
      ∀ tc, ¬ DestOk t fromCol movingCards tc := by
  unfold destFor
  rw [List.find?_eq_none]
  constructor
  · rintro hall tc ⟨hlt, hne, hdrop⟩
    have := hall tc (List.mem_range.mpr hlt)
    rw [Bool.and_eq_true, bne_iff_ne] at this
    exact this ⟨hne, hdrop⟩
  · intro hno tc htc
    rw [Bool.and_eq_true, bne_iff_ne]
    rintro ⟨hne, hdrop⟩
    exact hno tc ⟨List.mem_range.mp htc, hne, hdrop⟩

theorem movability_of_not_bad {L : List Card}
    (hbad : ¬ (decide (1 < L.length) && !isValidSpiderRun L) = true) :
    L.length ≤ 1 ∨ isValidSpiderRun L = true := by
  rcases Bool.and_eq_false_iff.mp (Bool.eq_false_iff.mpr hbad) with h1 | h2
  · left
    have := decide_eq_false_iff_not.mp h1
    omega
  · right
    cases hrun : isValidSpiderRun L
    · rw [hrun] at h2
      cases h2
    · rfl

theorem bad_of_movability {L : List Card}
    (hbad : (decide (1 < L.length) && !isValidSpiderRun L) = true)
    (hmv : L.length ≤ 1 ∨ isValidSpiderRun L = true) : False := by
  rw [Bool.and_eq_true, decide_eq_true_eq, Bool.not_eq_true'] at hbad
  rcases hmv with h1 | h2
  · omega
  · rw [h2] at hbad
    cases hbad.2

theorem rowCandidate_none_iff {t : List (List Card)} {fc fr : Nat}
    (hfc : fc < t.length) (hfr : fr < (t.getD fc []).length) :
    rowCandidate t fc fr = none ↔ ∀ tc, ¬ LegalTableauMove t fc fr tc := by
  unfold rowCandidate
  by_cases hface : ((t.getD fc []).getD fr noCard).faceUp = true
  · rw [if_pos hface]
    by_cases hbad : (decide (1 < ((t.getD fc []).drop fr).length) &&
        !isValidSpiderRun ((t.getD fc []).drop fr)) = true
    · rw [if_pos hbad]
      constructor
      · intro _ tc hlegal
        exact bad_of_movability hbad hlegal.2.2.2.1
      · intro _
        rfl
    · rw [if_neg hbad]
      have hmv := movability_of_not_bad hbad
      rw [Option.map_eq_none', destFor_none_iff]
      constructor
      · intro hno tc hlegal
        exact hno tc ⟨hlegal.2.2.2.2.1, hlegal.2.2.2.2.2.1, hlegal.2.2.2.2.2.2⟩
      · rintro hno tc ⟨htc, hne, hdrop⟩
        exact hno tc ⟨hfc, hfr, hface, hmv, htc, hne, hdrop⟩
  · rw [if_neg hface]
    constructor
    · intro _ tc hlegal
      exact hface hlegal.2.2.1
    · intro _
      rfl

theorem rowCandidate_some_iff {t : List (List Card)} {fc fr : Nat}
    {x : Nat × Nat × Nat}
    (hfc : fc < t.length) (hfr : fr < (t.getD fc []).length) :
    rowCandidate t fc fr = some x ↔
      ∃ tc, x = (fc, fr, tc) ∧ LegalTableauMove t fc fr tc ∧
        ∀ tc', LegalTableauMove t fc fr tc' → tc ≤ tc' := by
  unfold rowCandidate
  by_cases hface : ((t.getD fc []).getD fr noCard).faceUp = true
  · rw [if_pos hface]
    by_cases hbad : (decide (1 < ((t.getD fc []).drop fr).length) &&
        !isValidSpiderRun ((t.getD fc []).drop fr)) = true
    · rw [if_pos hbad]
      constructor
      · intro hcon
        cases hcon
      · rintro ⟨tc, rfl, hlegal, _⟩
        exact (bad_of_movability hbad hlegal.2.2.2.1).elim
    · rw [if_neg hbad]
      have hmv := movability_of_not_bad hbad
      rw [Option.map_eq_some']
      constructor
      · rintro ⟨tc, hdf, rfl⟩
        obtain ⟨⟨htc, hne, hdrop⟩, hmin⟩ := destFor_some_iff.mp hdf
        refine ⟨tc, rfl, ⟨hfc, hfr, hface, hmv, htc, hne, hdrop⟩, ?_⟩
        intro tc' hlegal
        exact hmin tc' ⟨hlegal.2.2.2.2.1, hlegal.2.2.2.2.2.1, hlegal.2.2.2.2.2.2⟩
      · rintro ⟨tc, rfl, hlegal, hmin⟩
        refine ⟨tc, ?_, rfl⟩
        refine destFor_some_iff.mpr
          ⟨⟨hlegal.2.2.2.2.1, hlegal.2.2.2.2.2.1, hlegal.2.2.2.2.2.2⟩, ?_⟩
        rintro tc' ⟨htc, hne, hdrop⟩
        exact hmin tc' ⟨hfc, hfr, hface, hmv, htc, hne, hdrop⟩
  · rw [if_neg hface]
    constructor
    · intro hcon
      cases hcon
    · rintro ⟨tc, rfl, hlegal, _⟩
      exact absurd hlegal.2.2.1 hface

/-- Lexicographic order on scan positions: the claim's "first by source
pile, then by card position, then by destination pile". -/
def lex3 (a b c x y z : Nat) : Prop :=
  a < x ∨ (a = x ∧ (b < y ∨ (b = y ∧ c ≤ z)))

theorem findFirstMove_none_iff (t : List (List Card)) :
    findFirstMove t = none ↔ ∀ fc fr tc, ¬ LegalTableauMove t fc fr tc := by
  unfold findFirstMove
  rw [List.findSome?_eq_none_iff]
  constructor
  · intro hall fc fr tc hlegal
    have h1 := hall fc (List.mem_range.mpr hlegal.1)
    rw [List.findSome?_eq_none_iff] at h1
    have h2 := h1 fr (List.mem_range.mpr hlegal.2.1)
    exact (rowCandidate_none_iff hlegal.1 hlegal.2.1).mp h2 tc hlegal
  · intro hno fc hfc
    rw [List.findSome?_eq_none_iff]
    intro fr hfr
    exact (rowCandidate_none_iff (List.mem_range.mp hfc)
      (List.mem_range.mp hfr)).mpr fun tc => hno fc fr tc

theorem findFirstMove_some_iff (t : List (List Card)) (fc fr tc : Nat) :
    findFirstMove t = some (fc, fr, tc) ↔
      LegalTableauMove t fc fr tc ∧
        ∀ fc' fr' tc', LegalTableauMove t fc' fr' tc' →
          lex3 fc fr tc fc' fr' tc' := by
  unfold findFirstMove
  rw [range_findSome?_some_iff]
  constructor
  · rintro ⟨m, hm, hinner, houter⟩
    rw [range_findSome?_some_iff] at hinner
    obtain ⟨r, hr, hrow, hrows⟩ := hinner
    obtain ⟨tc0, heq, hlegal, hmin⟩ := (rowCandidate_some_iff hm hr).mp hrow
    obtain ⟨rfl, rfl, rfl⟩ : fc = m ∧ fr = r ∧ tc = tc0 := by
      injection heq with h1 h23
      injection h23 with h2 h3
      exact ⟨h1, h2, h3⟩
    refine ⟨hlegal, ?_⟩
    intro fc' fr' tc' hlegal'
    rcases Nat.lt_trichotomy fc fc' with hc | hc | hc
    · exact Or.inl hc
    · subst hc
      rcases Nat.lt_trichotomy fr fr' with hrr | hrr | hrr
      · exact Or.inr ⟨rfl, Or.inl hrr⟩
      · subst hrr
        exact Or.inr ⟨rfl, Or.inr ⟨rfl, hmin tc' hlegal'⟩⟩
      · exfalso
        have hnone := hrows fr' hrr
        exact (rowCandidate_none_iff hlegal'.1 hlegal'.2.1).mp hnone tc' hlegal'
    · exfalso
      have hout := houter fc' hc
      rw [List.findSome?_eq_none_iff] at hout
      have := hout fr' (List.mem_range.mpr hlegal'.2.1)
      exact (rowCandidate_none_iff hlegal'.1 hlegal'.2.1).mp this tc' hlegal'
  · rintro ⟨hlegal, hleast⟩
    refine ⟨fc, hlegal.1, ?_, ?_⟩
    · rw [range_findSome?_some_iff]
      refine ⟨fr, hlegal.2.1, ?_, ?_⟩
      · refine (rowCandidate_some_iff hlegal.1 hlegal.2.1).mpr
          ⟨tc, rfl, hlegal, ?_⟩
        intro tc' hl'
        rcases hleast fc fr tc' hl' with hlt | ⟨_, hlt | ⟨_, hle⟩⟩
        · omega
        · omega
        · exact hle
      · intro k hk
        rcases hx : rowCandidate t fc k with _ | x
        · rfl
        · exfalso
          have hkbound : k < (t.getD fc []).length := Nat.lt_trans hk hlegal.2.1
          obtain ⟨tc0, rfl, hl0, _⟩ :=
            (rowCandidate_some_iff hlegal.1 hkbound).mp hx
          rcases hleast fc k tc0 hl0 with hlt | ⟨_, hlt | ⟨heq, _⟩⟩
          · omega
          · omega
          · omega
    · intro k hk
      rw [List.findSome?_eq_none_iff]
      intro r hr
      rcases hx : rowCandidate t k r with _ | x
      · rfl
      · exfalso
        have hkn : k < t.length := Nat.lt_trans hk hlegal.1
        obtain ⟨tc0, rfl, hl0, _⟩ :=
          (rowCandidate_some_iff hkn (List.mem_range.mp hr)).mp hx
        rcases hleast k r tc0 hl0 with hlt | ⟨heq, _⟩
        · omega
        · omega

/-- C7: `autoPlayNextMove` applies exactly one action in priority order —
clear the run of the lowest-indexed completable pile; otherwise apply the
lexicographically first legal tableau move (source pile, then card
position, then destination pile, all ascending); otherwise deal from the
stock when that is legal; otherwise return the state unchanged. -/
theorem claim_C7_autoplay_priority (s : GameState) (h : List GameState) :
    (∀ col, col < s.tableau.length →
      IsCompletedRunTop (s.tableau.getD col []) →
      (∀ j, j < col → ¬ IsCompletedRunTop (s.tableau.getD j [])) →
      autoPlayNextMove s h = (clearRunAt s col, h ++ [s])) ∧
      ((∀ col, col < s.tableau.length → ¬ IsCompletedRunTop (s.tableau.getD col [])) →
        ∀ fc fr tc, LegalTableauMove s.tableau fc fr tc →
          (∀ fc' fr' tc', LegalTableauMove s.tableau fc' fr' tc' →
            lex3 fc fr tc fc' fr' tc') →
          autoPlayNextMove s h = (movedState s fc fr tc, h ++ [s])) ∧
      ((∀ col, col < s.tableau.length → ¬ IsCompletedRunTop (s.tableau.getD col [])) →
        (∀ fc fr tc, ¬ LegalTableauMove s.tableau fc fr tc) →
        s.stock ≠ [] → (∀ p ∈ s.tableau, p ≠ []) →
        autoPlayNextMove s h = (dealtState s, h ++ [s])) ∧
      ((∀ col, col < s.tableau.length → ¬ IsCompletedRunTop (s.tableau.getD col [])) →
        (∀ fc fr tc, ¬ LegalTableauMove s.tableau fc fr tc) →
        (s.stock = [] ∨ ∃ p ∈ s.tableau, p = []) →
        autoPlayNextMove s h = (s, h)) := by
  have runColNone : (∀ col, col < s.tableau.length →
      ¬ IsCompletedRunTop (s.tableau.getD col [])) → findRunCol s.tableau = none := by
    intro hno
    unfold findRunCol
    exact List.find?_eq_none.mpr fun col hcol hchk =>
      hno col (List.mem_range.mp hcol) ((completedRunCheck_iff _).mp hchk)
  refine ⟨?_, ?_, ?_, ?_⟩
  · intro col hcol hrun hleast
    have hfind : findRunCol s.tableau = some col := by
      unfold findRunCol
      rw [range_find?_some_iff]
      exact ⟨hcol, (completedRunCheck_iff _).mpr hrun, fun k hk =>
        Bool.eq_false_iff.mpr fun hchk =>
          hleast k hk ((completedRunCheck_iff _).mp hchk)⟩
    unfold autoPlayNextMove
    rw [hfind]
  · intro hno fc fr tc hlegal hleast
    have h2 : findFirstMove s.tableau = some (fc, fr, tc) :=
      (findFirstMove_some_iff s.tableau fc fr tc).mpr ⟨hlegal, hleast⟩
    unfold autoPlayNextMove
    rw [runColNone hno, h2]
  · intro hno hnomove hstock hpiles
    have h2 : findFirstMove s.tableau = none := (findFirstMove_none_iff _).mpr hnomove
    unfold autoPlayNextMove
    rw [runColNone hno, h2]
    rw [if_pos]
    rw [Bool.and_eq_true]
    constructor
    · rw [Bool.not_eq_true', List.isEmpty_eq_false]
      exact hstock
    · rw [List.all_eq_true]
      intro col hcolmem
      rw [decide_eq_true_eq]
      exact List.length_pos.mpr (hpiles col hcolmem)
  · intro hno hnomove hdead
    have h2 : findFirstMove s.tableau = none := (findFirstMove_none_iff _).mpr hnomove
    unfold autoPlayNextMove
    rw [runColNone hno, h2]
    rw [if_neg]
    rw [Bool.not_eq_true, Bool.and_eq_false_iff]
    rcases hdead with hs | ⟨p, hp, rfl⟩
    · left
      rw [hs]
      rfl
    · right
      rw [List.all_eq_false]
      exact ⟨[], hp, by simp⟩

/-- A 10-pile state whose pile 0 carries a complete face-up K-through-A
run of the first suit. -/
def sampleR : GameState :=
  { tableau := [[mkCard 0 12 true, mkCard 0 11 true, mkCard 0 10 true, mkCard 0 9 true,
      mkCard 0 8 true, mkCard 0 7 true, mkCard 0 6 true, mkCard 0 5 true,
      mkCard 0 4 true, mkCard 0 3 true, mkCard 0 2 true, mkCard 0 1 true,
      mkCard 0 0 true],
      [], [], [], [], [], [], [], [], []]
    stock := []
    completedRuns := 0
    moves := 0 }

/-- Witness for C7 at the run-clear branch on `sampleR`. -/
theorem claim_C7_witness :
    autoPlayNextMove sampleR [] = (clearRunAt sampleR 0, [] ++ [sampleR]) :=
  (claim_C7_autoplay_priority sampleR []).1 0 (by decide)
    ((completedRunCheck_iff _).mp (by decide))
    (fun j hj => absurd hj (Nat.not_lt_zero j))

end Spider
